import Mathlib

/-!
Verification of the netgonf NETCONF client core (src/netconf/framing.go and
the operation catalog).  Byte streams are modelled as `List Nat`
(byte values), the Go `io.Reader` transport as a list that yields
`min(requested, available)` bytes per read and end-of-file when empty, and
each stateful unframer as explicit state passing.
-/

namespace Netgonf

/-- Errors surfaced by the unframers: `io.EOF` (normal end of message) and
`ErrFraming` (NETCONF message framing error, framing.go line 29). -/
inductive RErr where
  | eof
  | framing
deriving DecidableEq, Repr

/-- The NETCONF 1.0 end-of-message delimiter `]]>]]>` (framing.go line 32). -/
def eomL : List Nat := [93, 93, 62, 93, 93, 62]

/-- `framerV10.Write` writes the payload verbatim (framing.go line 42). -/
def framerV10WriteBytes (p : List Nat) : List Nat := p

/-- Bytes on the wire for a v1.0-framed message: payload then, on `Close`,
the `]]>]]>` delimiter (framing.go lines 42-49). -/
def encodeV10 (b : List Nat) : List Nat := framerV10WriteBytes b ++ eomL

/-- State of `unframerV10` (framing.go lines 51-56): the valid prefix of the
six-byte sliding window, the remaining transport bytes, and the sticky
error. -/
structure V10State where
  buffer : List Nat
  input : List Nat
  err : Option RErr
deriving DecidableEq, Repr

/-- One probe of the window-scan loop (framing.go lines 80-84):
`bytes.Equal(c.buffer[i:], eom[:len(eom)-i])`. -/
def eomMatchAt (w : List Nat) (i : Nat) : Bool :=
  w.drop i = eomL.take (6 - i)

/-- The scan loop of `unframerV10.Read` (framing.go lines 79-84): the least
`i < 6` whose window suffix matches the corresponding delimiter prefix,
else 6. -/
def matchIdx (w : List Nat) : Nat :=
  if eomMatchAt w 0 then 0
  else if eomMatchAt w 1 then 1
  else if eomMatchAt w 2 then 2
  else if eomMatchAt w 3 then 3
  else if eomMatchAt w 4 then 4
  else if eomMatchAt w 5 then 5
  else 6

/-- `unframerV10.Read` (framing.go lines 62-95) for a caller buffer of size
`psize`: returns the delivered bytes, the error, and the successor state.
The fill loop reads until the window holds six bytes, turning transport EOF
into `ErrFraming`; a full-window delimiter match reports `io.EOF`;
otherwise the payload-safe prefix is delivered and the window shifted. -/
def unframerV10Read (psize : Nat) (s : V10State) : (List Nat × Option RErr) × V10State :=
  match s.err with
  | some e => (([], some e), s)
  | none =>
    if s.buffer.length + s.input.length < 6 then
      (([], some .framing), ⟨s.buffer ++ s.input, [], some .framing⟩)
    else
      let buf := s.buffer ++ s.input.take (6 - s.buffer.length)
      let inp := s.input.drop (6 - s.buffer.length)
      let i := matchIdx buf
      if i = 0 then
        (([], some .eof), ⟨buf, inp, some .eof⟩)
      else
        let d := min psize i
        ((buf.take d, none), ⟨buf.drop d, inp, none⟩)

/-- Decimal digits, least significant first; `fuel` bounds the recursion
depth (any `fuel ≥ n` gives the digits of `n`). -/
def natDigitsAux : Nat → Nat → List Nat
  | 0, _ => []
  | fuel + 1, n => if n = 0 then [] else n % 10 :: natDigitsAux fuel (n / 10)

/-- Decimal digits of `n`, least significant first. -/
def natDigits (n : Nat) : List Nat := natDigitsAux n n

/-- `strconv.Itoa` for naturals, as ASCII codes (most significant first). -/
def itoaL (n : Nat) : List Nat :=
  if n = 0 then [48] else ((natDigits n).reverse).map (fun d => d + 48)

/-- `framerV11.Write` (framing.go lines 117-125): a non-empty payload is
preceded by the chunk header `\n#<decimal length>\n`. -/
def framerV11WriteBytes (p : List Nat) : List Nat :=
  if 0 < p.length then (10 :: 35 :: itoaL p.length ++ [10]) ++ p else p

/-- `framerV11.Close` emits the end-of-chunks marker `\n##\n`
(framing.go lines 127-130). -/
def framerV11CloseBytes : List Nat := [10, 35, 35, 10]

/-- Bytes on the wire for a v1.1-framed message written as the given chunks
followed by `Close`. -/
def encodeV11 (chunks : List (List Nat)) : List Nat :=
  (chunks.map framerV11WriteBytes).flatten ++ framerV11CloseBytes

/-- State of `unframerV11` (framing.go lines 132-136): bytes remaining in
the current chunk, remaining transport bytes, sticky error. -/
structure V11State where
  len : Nat
  input : List Nat
  err : Option RErr
deriving DecidableEq, Repr

/-- The digit loop of `unframerV11.Read` (framing.go lines 156-176), entered
after the leading `\n#`: `##\n` (with no digits accumulated) signals
`io.EOF`; digits accumulate into the chunk length; a newline after a
positive length completes the header; anything else - including transport
EOF - is `ErrFraming`.  Returns the error, the accumulated length, and the
unconsumed input. -/
def parseLenLoop : Nat → List Nat → Option RErr × Nat × List Nat
  | acc, [] => (some .framing, acc, [])
  | acc, b :: r =>
    if acc = 0 ∧ b = 35 then
      match r with
      | [] => (some .framing, acc, [])
      | b2 :: r2 => if b2 = 10 then (some .eof, acc, r2) else (some .framing, acc, r2)
    else if 48 ≤ b ∧ b ≤ 57 then parseLenLoop (acc * 10 + (b - 48)) r
    else if b = 10 ∧ 0 < acc then (none, acc, r)
    else (some .framing, acc, r)

/-- The header parse of `unframerV11.Read` (framing.go lines 145-181): a
chunk header must start `\n#`; transport EOF or any other byte is
`ErrFraming`. -/
def parseHeader (input : List Nat) : Option RErr × Nat × List Nat :=
  match input with
  | [] => (some .framing, 0, [])
  | b :: r =>
    if b = 10 then
      match r with
      | [] => (some .framing, 0, [])
      | b2 :: r2 => if b2 = 35 then parseLenLoop 0 r2 else (some .framing, 0, r2)
    else (some .framing, 0, r)

/-- `unframerV11.Read` (framing.go lines 142-199) for a caller buffer of
size `psize`: a sticky error is returned as-is; a zero-size buffer returns
the current (nil) error; between chunks the header is parsed; then up to
`min(psize, len)` bytes of the current chunk are delivered, transport EOF
mid-chunk being `ErrFraming`. -/
def unframerV11Read (psize : Nat) (s : V11State) : (List Nat × Option RErr) × V11State :=
  match s.err with
  | some e => (([], some e), s)
  | none =>
    if psize = 0 then (([], none), s)
    else
      match (if s.len = 0 then parseHeader s.input else (none, s.len, s.input)) with
      | (some e, n, rest) => (([], some e), ⟨n, rest, some e⟩)
      | (none, n, rest) =>
        match rest with
        | [] => (([], some .framing), ⟨n, [], some .framing⟩)
        | _ :: _ =>
          let k := min (min psize n) rest.length
          ((rest.take k, none), ⟨n - k, rest.drop k, none⟩)

/-- Repeatedly `Read` with buffer size `psize` until an error is returned,
concatenating the delivered bytes, as `unframerV10.Close`/`unframerV11.Close`
do (framing.go lines 97-107 and 201-211) and as any consumer of a whole
frame does.  `fuel` bounds the number of reads. -/
def drainAux {S : Type} (read : Nat → S → (List Nat × Option RErr) × S)
    (psize : Nat) : Nat → S → List Nat × Option RErr
  | 0, _ => ([], none)
  | fuel + 1, s =>
    match read psize s with
    | ((out, some e), _) => (out, some e)
    | ((out, none), s') =>
      let r := drainAux read psize fuel s'
      (out ++ r.1, r.2)

/-- Read an entire v1.0-framed message. -/
def drainV10 (psize : Nat) (s : V10State) : List Nat × Option RErr :=
  drainAux unframerV10Read psize (s.buffer.length + s.input.length + 1) s

/-- Read an entire v1.1-framed message. -/
def drainV11 (psize : Nat) (s : V11State) : List Nat × Option RErr :=
  drainAux unframerV11Read psize (s.input.length + 1) s

/-! ### Decimal digit lemmas -/

lemma natDigitsAux_congr : ∀ f1 f2 n, n ≤ f1 → n ≤ f2 → natDigitsAux f1 n = natDigitsAux f2 n := by
  intro f1
  induction f1 with
  | zero =>
    intro f2 n h1 _
    interval_cases n
    cases f2 <;> simp [natDigitsAux]
  | succ f1 ih =>
    intro f2 n h1 h2
    cases f2 with
    | zero =>
      interval_cases n
      simp [natDigitsAux]
    | succ f2 =>
      simp only [natDigitsAux]
      rcases eq_or_ne n 0 with h | h
      · simp [h]
      · rw [if_neg h, if_neg h]
        have hlt : n / 10 < n := Nat.div_lt_self (Nat.pos_of_ne_zero h) (by norm_num)
        rw [ih f2 (n / 10) (by omega) (by omega)]

lemma natDigits_eq (n : Nat) :
    natDigits n = if n = 0 then [] else n % 10 :: natDigits (n / 10) := by
  rcases eq_or_ne n 0 with h | h
  · simp [h, natDigits, natDigitsAux]
  · rw [if_neg h]
    unfold natDigits
    obtain ⟨m, rfl⟩ : ∃ m, n = m + 1 := ⟨n - 1, by omega⟩
    simp only [natDigitsAux, if_neg h]
    have hlt : (m + 1) / 10 < m + 1 := Nat.div_lt_self (by omega) (by norm_num)
    rw [natDigitsAux_congr m ((m + 1) / 10) ((m + 1) / 10) (by omega) (by omega)]

lemma natDigits_le_nine (n : Nat) : ∀ d ∈ natDigits n, d ≤ 9 := by
  induction n using Nat.strong_induction_on with
  | _ n ih =>
    intro d hd
    rw [natDigits_eq] at hd
    rcases eq_or_ne n 0 with h | h
    · simp [h] at hd
    · rw [if_neg h] at hd
      rcases List.mem_cons.mp hd with h1 | h1
      · subst h1; omega
      · exact ih (n / 10) (Nat.div_lt_self (Nat.pos_of_ne_zero h) (by norm_num)) d h1

lemma foldl_natDigits_reverse (n : Nat) : ∀ acc : Nat,
    ((natDigits n).reverse).foldl (fun a d => a * 10 + d) acc
      = acc * 10 ^ (natDigits n).length + n := by
  induction n using Nat.strong_induction_on with
  | _ n ih =>
    intro acc
    rcases eq_or_ne n 0 with h | h
    · subst h; simp [natDigits, natDigitsAux]
    · rw [natDigits_eq n, if_neg h]
      have hlt : n / 10 < n := Nat.div_lt_self (Nat.pos_of_ne_zero h) (by norm_num)
      simp only [List.reverse_cons, List.foldl_append, List.length_cons, ih _ hlt]
      have hmod := Nat.div_add_mod n 10
      simp only [List.foldl_cons, List.foldl_nil, pow_succ]
      have hring : (acc * 10 ^ (natDigits (n / 10)).length + n / 10) * 10 + n % 10
          = acc * (10 ^ (natDigits (n / 10)).length * 10) + (10 * (n / 10) + n % 10) := by
        ring
      rw [hring, hmod]

/-- Accumulating digit parse, as the digit branch of the v1.1 header loop
computes it (framing.go line 167). -/
def foldDigits (acc : Nat) (ds : List Nat) : Nat :=
  ds.foldl (fun a d => a * 10 + (d - 48)) acc

lemma foldDigits_itoaL (n : Nat) : foldDigits 0 (itoaL n) = n := by
  rcases eq_or_ne n 0 with h | h
  · subst h; simp [itoaL, foldDigits]
  · rw [itoaL, if_neg h]
    unfold foldDigits
    rw [List.foldl_map]
    simp only [Nat.add_sub_cancel]
    rw [foldl_natDigits_reverse n 0]
    simp

lemma itoaL_digits (n : Nat) : ∀ d ∈ itoaL n, 48 ≤ d ∧ d ≤ 57 := by
  intro d hd
  rw [itoaL] at hd
  rcases eq_or_ne n 0 with h | h
  · rw [if_pos h] at hd
    simp at hd
    omega
  · rw [if_neg h] at hd
    obtain ⟨x, hx, rfl⟩ := List.mem_map.mp hd
    have := natDigits_le_nine n x (List.mem_reverse.mp hx)
    omega

/-! ### v1.1 header parsing lemmas -/

lemma parseLenLoop_digits : ∀ ds acc tail, (∀ d ∈ ds, 48 ≤ d ∧ d ≤ 57) →
    0 < foldDigits acc ds →
    parseLenLoop acc (ds ++ 10 :: tail) = (none, foldDigits acc ds, tail) := by
  intro ds
  induction ds with
  | nil =>
    intro acc tail _ hpos
    have hacc : foldDigits acc [] = acc := rfl
    rw [hacc] at hpos ⊢
    simp only [List.nil_append]
    simp [parseLenLoop, hpos]
  | cons d ds ih =>
    intro acc tail hds hpos
    have hd := hds d (List.mem_cons_self d ds)
    have hstep : parseLenLoop acc ((d :: ds) ++ 10 :: tail)
        = parseLenLoop (acc * 10 + (d - 48)) (ds ++ 10 :: tail) := by
      simp only [List.cons_append, parseLenLoop]
      rw [if_neg (by omega), if_pos (by omega)]
      rfl
    rw [hstep]
    have hfold : foldDigits acc (d :: ds) = foldDigits (acc * 10 + (d - 48)) ds := rfl
    rw [hfold] at hpos ⊢
    exact ih (acc * 10 + (d - 48)) tail (fun x hx => hds x (List.mem_cons_of_mem d hx)) hpos

lemma parseHeader_chunk (n : Nat) (hn : 0 < n) (tail : List Nat) :
    parseHeader (10 :: 35 :: (itoaL n ++ 10 :: tail)) = (none, n, tail) := by
  have h := parseLenLoop_digits (itoaL n) 0 tail (itoaL_digits n)
    (by rw [foldDigits_itoaL]; omega)
  rw [foldDigits_itoaL] at h
  simp [parseHeader, h]

lemma parseHeader_term (tail : List Nat) :
    parseHeader (10 :: 35 :: 35 :: 10 :: tail) = (some .eof, 0, tail) := by
  simp [parseHeader, parseLenLoop]

/-! ### v1.1 read-step lemmas -/

lemma v11Read_deliver (psize : Nat) (hp : 0 < psize) (cb enc : List Nat) (hcb : cb ≠ []) :
    unframerV11Read psize ⟨cb.length, cb ++ enc, none⟩ =
      ((cb.take (min psize cb.length), none),
       ⟨(cb.drop (min psize cb.length)).length, cb.drop (min psize cb.length) ++ enc, none⟩) := by
  cases cb with
  | nil => exact absurd rfl hcb
  | cons b cb' =>
    have hkle : min psize (b :: cb').length ≤ (b :: cb').length := Nat.min_le_right _ _
    have htake : List.take (min psize (b :: cb').length) (b :: (cb' ++ enc))
        = List.take (min psize (b :: cb').length) (b :: cb') := by
      rw [show (b :: (cb' ++ enc)) = (b :: cb') ++ enc from rfl]
      rw [List.take_append_eq_append_take, Nat.sub_eq_zero_of_le hkle]
      simp
    have hdrop : List.drop (min psize (b :: cb').length) (b :: (cb' ++ enc))
        = List.drop (min psize (b :: cb').length) (b :: cb') ++ enc := by
      rw [show (b :: (cb' ++ enc)) = (b :: cb') ++ enc from rfl]
      rw [List.drop_append_eq_append_drop, Nat.sub_eq_zero_of_le hkle]
      simp
    have hlen2 : (b :: cb').length - min psize (b :: cb').length
        = (List.drop (min psize (b :: cb').length) (b :: cb')).length := by
      rw [List.length_drop]
    have hk : min (min psize (b :: cb').length) (b :: (cb' ++ enc)).length
        = min psize (b :: cb').length := by
      simp only [List.length_cons, List.length_append]
      omega
    simp only [unframerV11Read]
    rw [if_neg (by omega : ¬ psize = 0)]
    rw [if_neg (by simp : ¬ (b :: cb').length = 0)]
    simp only [List.cons_append, hk, htake, hdrop, hlen2]

lemma v11Read_header (psize : Nat) (hp : 0 < psize) (c tail : List Nat) (hc : c ≠ []) :
    unframerV11Read psize ⟨0, ((10 :: 35 :: itoaL c.length ++ [10]) ++ c) ++ tail, none⟩ =
      ((c.take (min psize c.length), none),
       ⟨(c.drop (min psize c.length)).length, c.drop (min psize c.length) ++ tail, none⟩) := by
  have hlen : 0 < c.length := List.length_pos.mpr hc
  have hshape : ((10 :: 35 :: itoaL c.length ++ [10]) ++ c) ++ tail
      = 10 :: 35 :: (itoaL c.length ++ 10 :: (c ++ tail)) := by
    simp [List.cons_append, List.append_assoc]
  rw [hshape]
  simp only [unframerV11Read]
  rw [if_neg (by omega : ¬ psize = 0)]
  simp only [if_true, parseHeader_chunk c.length hlen (c ++ tail)]
  cases c with
  | nil => exact absurd rfl hc
  | cons b c' =>
    have hkle : min psize (b :: c').length ≤ (b :: c').length := Nat.min_le_right _ _
    have htake : List.take (min psize (b :: c').length) (b :: (c' ++ tail))
        = List.take (min psize (b :: c').length) (b :: c') := by
      rw [show (b :: (c' ++ tail)) = (b :: c') ++ tail from rfl]
      rw [List.take_append_eq_append_take, Nat.sub_eq_zero_of_le hkle]
      simp
    have hdrop : List.drop (min psize (b :: c').length) (b :: (c' ++ tail))
        = List.drop (min psize (b :: c').length) (b :: c') ++ tail := by
      rw [show (b :: (c' ++ tail)) = (b :: c') ++ tail from rfl]
      rw [List.drop_append_eq_append_drop, Nat.sub_eq_zero_of_le hkle]
      simp
    have hlen2 : (b :: c').length - min psize (b :: c').length
        = (List.drop (min psize (b :: c').length) (b :: c')).length := by
      rw [List.length_drop]
    have hk : min (min psize (b :: c').length) (b :: (c' ++ tail)).length
        = min psize (b :: c').length := by
      simp only [List.length_cons, List.length_append]
      omega
    simp only [List.cons_append, hk, htake, hdrop, hlen2]

lemma v11Read_term (psize : Nat) (hp : 0 < psize) (tail : List Nat) :
    unframerV11Read psize ⟨0, 10 :: 35 :: 35 :: 10 :: tail, none⟩
      = (([], some .eof), ⟨0, tail, some .eof⟩) := by
  simp only [unframerV11Read]
  rw [if_neg (by omega : ¬ psize = 0)]
  simp only [if_true, parseHeader_term]

/-! ### Claim C1: v1.1 chunked round-trip -/

lemma drainAux_v11_frames (psize : Nat) (hp : 0 < psize) :
    ∀ fuel cs cb, (∀ c ∈ cs, c ≠ ([] : List Nat)) →
      cb.length + (encodeV11 cs).length + 1 ≤ fuel →
      drainAux unframerV11Read psize fuel ⟨cb.length, cb ++ encodeV11 cs, none⟩
        = (cb ++ cs.flatten, some .eof) := by
  intro fuel
  induction fuel with
  | zero =>
    intro cs cb _ hb
    omega
  | succ fuel ih =>
    intro cs cb hcs hb
    cases cb with
    | nil =>
      cases cs with
      | nil =>
        have henc : encodeV11 [] = 10 :: 35 :: 35 :: 10 :: [] := rfl
        simp only [List.nil_append, List.length_nil, henc, drainAux]
        rw [v11Read_term psize hp []]
        simp
      | cons c cs' =>
        have hc : c ≠ [] := hcs c (List.mem_cons_self _ _)
        have henc : encodeV11 (c :: cs')
            = ((10 :: 35 :: itoaL c.length ++ [10]) ++ c) ++ encodeV11 cs' := by
          simp only [encodeV11, List.map_cons, List.flatten_cons, framerV11WriteBytes,
            if_pos (List.length_pos.mpr hc), List.append_assoc]
        have hlenenc : (encodeV11 (c :: cs')).length
            = (itoaL c.length).length + 3 + c.length + (encodeV11 cs').length := by
          rw [henc]
          simp [List.length_append]
          omega
        simp only [List.nil_append, List.length_nil, henc, drainAux]
        rw [v11Read_header psize hp c (encodeV11 cs') hc]
        have hrec := ih cs' (c.drop (min psize c.length))
          (fun x hx => hcs x (List.mem_cons_of_mem _ hx))
          (by
            rw [List.length_drop]
            omega)
        dsimp only
        rw [hrec]
        simp only [List.flatten_cons, List.nil_append]
        rw [← List.append_assoc, List.take_append_drop]
    | cons b cb' =>
      simp only [drainAux]
      rw [v11Read_deliver psize hp (b :: cb') (encodeV11 cs) (by simp)]
      have hk1 : 1 ≤ min psize (b :: cb').length := by
        have : 1 ≤ (b :: cb').length := by simp
        omega
      have hrec := ih cs ((b :: cb').drop (min psize (b :: cb').length)) hcs
        (by
          rw [List.length_drop]
          simp only [List.length_cons] at hb ⊢
          omega)
      dsimp only
      rw [hrec]
      rw [← List.append_assoc, List.take_append_drop]

/-- Claim C1: v1.1 chunked round-trip.  For every byte sequence split into
any number of nonempty chunks, writing each chunk with `framerV11.Write`
and closing (i.e. the wire bytes `encodeV11 chunks`) and then reading the
stream back through `unframerV11` (with any positive caller buffer size)
delivers exactly the concatenation of the chunks and then signals
end-of-stream (`io.EOF`) exactly once, at which point the drain stops. -/
theorem framing_v11_chunked_roundtrip (chunks : List (List Nat)) (psize : Nat)
    (hp : 0 < psize) (hne : ∀ c ∈ chunks, c ≠ ([] : List Nat)) :
    drainV11 psize ⟨0, encodeV11 chunks, none⟩ = (chunks.flatten, some .eof) := by
  have h := drainAux_v11_frames psize hp ((encodeV11 chunks).length + 1) chunks [] hne
    (by simp)
  simpa [drainV11] using h

/-- Witness for C1: concrete chunks `[[60], [97, 98]]` and buffer size 4. -/
theorem framing_v11_chunked_roundtrip_witness :
    (0 < 4 ∧ ∀ c ∈ [[60], [97, 98]], c ≠ ([] : List Nat)) ∧
    drainV11 4 ⟨0, encodeV11 [[60], [97, 98]], none⟩ = ([60, 97, 98], some .eof) :=
  ⟨⟨by norm_num, by decide⟩, by
    have h := framing_v11_chunked_roundtrip [[60], [97, 98]] 4 (by norm_num) (by decide)
    simpa using h⟩

/-! ### Claim C2: v1.0 end-of-message round-trip -/

lemma eomMatchAt_zero_iff (w : List Nat) : eomMatchAt w 0 = true ↔ w = eomL := by
  simp [eomMatchAt, eomL]

lemma matchIdx_pos (w : List Nat) (h : w ≠ eomL) : 0 < matchIdx w := by
  unfold matchIdx
  rw [if_neg (by rw [eomMatchAt_zero_iff]; exact h)]
  split_ifs <;> omega

lemma matchIdx_le_six (w : List Nat) : matchIdx w ≤ 6 := by
  unfold matchIdx
  split_ifs <;> omega

lemma matchIdx_le (w : List Nat) (k : Nat) (hk : k ≤ 5) (h : eomMatchAt w k = true) :
    matchIdx w ≤ k := by
  interval_cases k <;> (unfold matchIdx; split_ifs <;> first | omega | simp_all)

lemma matchIdx_eomL : matchIdx eomL = 0 := by decide

/-- No-early-delimiter condition: scanning the framed stream `B ++ ]]>]]>`
never sees the six-byte delimiter strictly before the end of `B`. -/
def noEarlyEom (B : List Nat) : Prop :=
  ∀ j, j < B.length → ((B ++ eomL).drop j).take 6 ≠ eomL

/-- Whether `pat` occurs as a contiguous subsequence of `l`. -/
def hasSeqB (pat l : List Nat) : Bool :=
  (List.range (l.length + 1)).any (fun j => decide ((l.drop j).take pat.length = pat))

/-- Whether `l` ends with `pat`. -/
def endsWithB (pat l : List Nat) : Bool :=
  decide (pat.length ≤ l.length ∧ l.drop (l.length - pat.length) = pat)

lemma noEarlyEom_of (B : List Nat) (h1 : hasSeqB eomL B = false)
    (h2 : endsWithB [93, 93, 62] B = false) : noEarlyEom B := by
  intro j hj heq
  have hdropj : (B ++ eomL).drop j = B.drop j ++ eomL := by
    rw [List.drop_append_eq_append_drop, Nat.sub_eq_zero_of_le (le_of_lt hj), List.drop_zero]
  rw [hdropj] at heq
  have hlend : (B.drop j).length = B.length - j := List.length_drop j B
  obtain ⟨k, hkdef⟩ : ∃ k, B.length - j = k := ⟨_, rfl⟩
  have hk1 : 1 ≤ k := by omega
  by_cases hk6 : 6 ≤ k
  · have htk : (B.drop j).take 6 = eomL := by
      rw [List.take_append_eq_append_take, hlend, hkdef, Nat.sub_eq_zero_of_le hk6] at heq
      simpa using heq
    have : hasSeqB eomL B = true := by
      unfold hasSeqB
      rw [List.any_eq_true]
      refine ⟨j, List.mem_range.mpr (by omega), ?_⟩
      rw [decide_eq_true_eq]
      rw [show eomL.length = 6 from rfl]
      exact htk
    rw [this] at h1
    simp at h1
  · have hk5 : k ≤ 5 := by omega
    have htkeq : B.drop j ++ eomL.take (6 - k) = eomL := by
      rw [List.take_append_eq_append_take, hlend, hkdef] at heq
      rw [List.take_of_length_le (by omega)] at heq
      exact heq
    have hsplit : B.drop j = eomL.take k ∧ eomL.take (6 - k) = eomL.drop k := by
      have hlen2 : (B.drop j).length = (eomL.take k).length := by
        rw [hlend, hkdef, List.length_take]
        rw [show eomL.length = 6 from rfl]
        omega
      have := List.append_inj (htkeq.trans (List.take_append_drop k eomL).symm) hlen2
      exact this
    have hj3 : j = B.length - k := by omega
    interval_cases k
    · exact absurd hsplit.2 (by decide)
    · exact absurd hsplit.2 (by decide)
    · -- k = 3: B ends with "]]>"
      have hends : endsWithB [93, 93, 62] B = true := by
        unfold endsWithB
        rw [decide_eq_true_eq]
        have h3 : ([93, 93, 62] : List Nat).length = 3 := rfl
        refine ⟨by rw [h3]; omega, ?_⟩
        rw [h3, ← hj3, hsplit.1]
        decide
      rw [hends] at h2
      simp at h2
    · exact absurd hsplit.2 (by decide)
    · exact absurd hsplit.2 (by decide)

lemma drop_take_append_drop (d n : Nat) (l : List Nat) (hd : d ≤ n) (hn : n ≤ l.length) :
    (l.take n).drop d ++ l.drop n = l.drop d := by
  conv_rhs => rw [show l = l.take n ++ l.drop n from (List.take_append_drop n l).symm]
  rw [List.drop_append_eq_append_drop]
  have hlt : (l.take n).length = n := by
    rw [List.length_take]
    omega
  rw [hlt, Nat.sub_eq_zero_of_le hd, List.drop_zero]

lemma drainAux_v10 (psize : Nat) (hp : 0 < psize) (B : List Nat) (hB : noEarlyEom B) :
    ∀ fuel j buffer input, j ≤ B.length →
      buffer ++ input = (B ++ eomL).drop j →
      buffer.length ≤ 6 →
      B.length + 6 - j + 1 ≤ fuel →
      drainAux unframerV10Read psize fuel ⟨buffer, input, none⟩ = (B.drop j, some .eof) := by
  intro fuel
  induction fuel with
  | zero =>
    intro j buffer input hj _ _ hfuel
    omega
  | succ fuel ih =>
    intro j buffer input hj happ hble hfuel
    have hsuffl : ((B ++ eomL).drop j).length = B.length + 6 - j := by
      rw [List.length_drop, List.length_append]
      rw [show eomL.length = 6 from rfl]
    have hlensum : buffer.length + input.length = B.length + 6 - j := by
      have := congrArg List.length happ
      rw [List.length_append] at this
      omega
    have h6 : ¬ buffer.length + input.length < 6 := by omega
    have hbuf : buffer ++ input.take (6 - buffer.length) = ((B ++ eomL).drop j).take 6 := by
      rw [← happ, List.take_append_eq_append_take, List.take_of_length_le hble]
    have hinp : input.drop (6 - buffer.length) = ((B ++ eomL).drop j).drop 6 := by
      rw [← happ, List.drop_append_eq_append_drop,
        List.drop_eq_nil_of_le hble, List.nil_append]
    simp only [drainAux, unframerV10Read]
    rw [if_neg h6]
    rw [hbuf, hinp]
    rcases eq_or_lt_of_le hj with hjeq | hjlt
    · -- j = B.length: the window is exactly the delimiter
      subst hjeq
      rw [List.drop_left]
      rw [show eomL.take 6 = eomL from rfl]
      rw [if_pos matchIdx_eomL]
      simp [List.drop_length]
    · -- j < B.length: deliver at least one payload byte
      have hne : ((B ++ eomL).drop j).take 6 ≠ eomL := hB j hjlt
      have hipos : 0 < matchIdx (((B ++ eomL).drop j).take 6) := matchIdx_pos _ hne
      have hile : matchIdx (((B ++ eomL).drop j).take 6) ≤ B.length - j := by
        by_cases hk6 : 6 ≤ B.length - j
        · exact le_trans (matchIdx_le_six _) hk6
        · apply matchIdx_le _ _ (by omega)
          unfold eomMatchAt
          rw [decide_eq_true_eq]
          rw [List.drop_take]
          rw [List.drop_drop, show j + (B.length - j) = B.length from by omega]
          rw [List.drop_left]
      rw [if_neg (by omega : ¬ matchIdx (((B ++ eomL).drop j).take 6) = 0)]
      dsimp only
      have hdlow : 1 ≤ min psize (matchIdx (((B ++ eomL).drop j).take 6)) := by omega
      have hdle6 : min psize (matchIdx (((B ++ eomL).drop j).take 6)) ≤ 6 :=
        le_trans (Nat.min_le_right _ _) (matchIdx_le_six _)
      have hdlek : min psize (matchIdx (((B ++ eomL).drop j).take 6)) ≤ B.length - j :=
        le_trans (Nat.min_le_right _ _) hile
      set d := min psize (matchIdx (((B ++ eomL).drop j).take 6)) with hd
      have htake6len : (((B ++ eomL).drop j).take 6).length = 6 := by
        rw [List.length_take]
        omega
      have happ2 : (((B ++ eomL).drop j).take 6).drop d ++ ((B ++ eomL).drop j).drop 6
          = (B ++ eomL).drop (j + d) := by
        rw [drop_take_append_drop d 6 ((B ++ eomL).drop j) hdle6 (by omega),
          List.drop_drop]
      have hrec := ih (j + d) ((((B ++ eomL).drop j).take 6).drop d)
        (((B ++ eomL).drop j).drop 6)
        (by omega) happ2 (by rw [List.length_drop]; omega) (by omega)
      rw [hrec]
      have hdropj2 : (B ++ eomL).drop j = B.drop j ++ eomL := by
        rw [List.drop_append_eq_append_drop, Nat.sub_eq_zero_of_le hj, List.drop_zero]
      have hout : ((((B ++ eomL).drop j).take 6).take d) = (B.drop j).take d := by
        rw [List.take_take, Nat.min_eq_left hdle6]
        rw [hdropj2, List.take_append_eq_append_take,
          Nat.sub_eq_zero_of_le (by rw [List.length_drop]; omega)]
        simp
      rw [hout]
      have hdropsplit : (B.drop j).take d ++ B.drop (j + d) = B.drop j := by
        rw [show B.drop (j + d) = (B.drop j).drop d from (List.drop_drop d j B).symm,
          List.take_append_drop]
      rw [hdropsplit]

/-- Claim C2 counterexample: the payload `]]>` (bytes `[93, 93, 62]`) does
not contain the six-byte delimiter `]]>]]>`, yet v1.0 framing followed by
v1.0 unframing delivers the empty payload and end-of-stream: the framed
stream `]]>]]>]]>` begins with a full delimiter window.  So the claim as
stated fails. -/
theorem framing_v10_roundtrip_cex :
    hasSeqB eomL [93, 93, 62] = false ∧
    drainV10 16 ⟨[], encodeV10 [93, 93, 62], none⟩ = ([], some .eof) ∧
    ([] : List Nat) ≠ [93, 93, 62] := by
  decide

/-- Claim C2 (amended): v1.0 end-of-message round-trip.  For every byte
sequence `B` that does not contain the six-byte delimiter `]]>]]>` *and
does not end with the three bytes `]]>`*, writing `B` with
`framerV10.Write` and closing (wire bytes `encodeV10 B`) and then reading
back through `unframerV10` (any positive buffer size) delivers exactly `B`
and then signals end-of-stream exactly once, at which point the drain
stops. -/
theorem framing_v10_eom_roundtrip (B : List Nat) (psize : Nat) (hp : 0 < psize)
    (h1 : hasSeqB eomL B = false) (h2 : endsWithB [93, 93, 62] B = false) :
    drainV10 psize ⟨[], encodeV10 B, none⟩ = (B, some .eof) := by
  have hne := noEarlyEom_of B h1 h2
  have hfuel : ([] : List Nat).length + (encodeV10 B).length + 1 = B.length + 6 - 0 + 1 := by
    simp [encodeV10, framerV10WriteBytes, eomL]
  have h := drainAux_v10 psize hp B hne
    (([] : List Nat).length + (encodeV10 B).length + 1) 0 [] (encodeV10 B)
    (by omega)
    (by simp [encodeV10, framerV10WriteBytes])
    (by simp)
    (by rw [hfuel])
  simpa [drainV10] using h

/-- Witness for the amended C2: payload `<a>` with buffer size 16. -/
theorem framing_v10_eom_roundtrip_witness :
    ((0 : Nat) < 16 ∧ hasSeqB eomL [60, 97, 62] = false ∧
      endsWithB [93, 93, 62] [60, 97, 62] = false) ∧
    drainV10 16 ⟨[], encodeV10 [60, 97, 62], none⟩ = ([60, 97, 62], some .eof) :=
  ⟨⟨by norm_num, by decide, by decide⟩,
    framing_v10_eom_roundtrip [60, 97, 62] 16 (by norm_num) (by decide) (by decide)⟩

/-! ### Claim C3: framing violations and sticky errors -/

lemma v10Read_err_eq : ∀ psize s,
    ((unframerV10Read psize s).2).err = (unframerV10Read psize s).1.2 := by
  intro psize s
  unfold unframerV10Read
  cases hs : s.err with
  | some e => simp [hs]
  | none =>
    dsimp only
    split_ifs <;> rfl

lemma v11Read_err_eq : ∀ psize s,
    ((unframerV11Read psize s).2).err = (unframerV11Read psize s).1.2 := by
  intro psize s
  unfold unframerV11Read
  cases hs : s.err with
  | some e => simp [hs]
  | none =>
    dsimp only
    by_cases h : psize = 0
    · rw [if_pos h]
      exact hs
    · rw [if_neg h]
      rcases hh : (if s.len = 0 then parseHeader s.input else (none, s.len, s.input))
        with ⟨oe, n, rest⟩
      cases oe with
      | some e => rfl
      | none =>
        cases rest with
        | nil => rfl
        | cons b r => rfl

lemma v11Read_headerErr (psize : Nat) (hp : ¬ psize = 0) (inp : List Nat)
    (e : RErr) (n : Nat) (rest : List Nat) (hph : parseHeader inp = (some e, n, rest)) :
    unframerV11Read psize ⟨0, inp, none⟩ = (([], some e), ⟨n, rest, some e⟩) := by
  simp [unframerV11Read, hp, hph]

/-- Claim C3: framing violations raise `ErrFraming` and errors are sticky.
Conjuncts: (1)-(2) a stored error is returned unchanged by every subsequent
`Read` of either unframer, with the state untouched; (3)-(4) the error a
`Read` returns is exactly the error stored in the successor state, so the
first error is returned forever after; (5) v1.0: transport EOF before the
six-byte window fills (the delimiter cannot complete) is `ErrFraming`;
(6) v1.1: transport EOF mid-frame (between chunks or mid-chunk) is
`ErrFraming`; (7)-(8) a chunk header not starting `\n#` is `ErrFraming`;
(9) a non-digit where a digit is expected is `ErrFraming`; (10) a
zero-length chunk header `\n#0\n` is `ErrFraming`; (11) a header truncated
after its digits is `ErrFraming`.  None of these is a silent success or a
normal end-of-stream. -/
theorem framing_violations_sticky :
    (∀ psize s e, s.err = some e → unframerV10Read psize s = (([], some e), s)) ∧
    (∀ psize s e, s.err = some e → unframerV11Read psize s = (([], some e), s)) ∧
    (∀ psize s, ((unframerV10Read psize s).2).err = (unframerV10Read psize s).1.2) ∧
    (∀ psize s, ((unframerV11Read psize s).2).err = (unframerV11Read psize s).1.2) ∧
    (∀ psize s, s.err = none → s.buffer.length + s.input.length < 6 →
      (unframerV10Read psize s).1.2 = some .framing) ∧
    (∀ psize n, 0 < psize →
      (unframerV11Read psize ⟨n, [], none⟩).1.2 = some .framing) ∧
    (∀ psize b r, 0 < psize → b ≠ 10 →
      (unframerV11Read psize ⟨0, b :: r, none⟩).1.2 = some .framing) ∧
    (∀ psize b r, 0 < psize → b ≠ 35 →
      (unframerV11Read psize ⟨0, 10 :: b :: r, none⟩).1.2 = some .framing) ∧
    (∀ psize b r, 0 < psize → ¬ (48 ≤ b ∧ b ≤ 57) → b ≠ 35 → b ≠ 10 →
      (unframerV11Read psize ⟨0, 10 :: 35 :: b :: r, none⟩).1.2 = some .framing) ∧
    (∀ psize r, 0 < psize →
      (unframerV11Read psize ⟨0, 10 :: 35 :: 48 :: 10 :: r, none⟩).1.2 = some .framing) ∧
    (∀ psize, 0 < psize →
      (unframerV11Read psize ⟨0, [10, 35, 49], none⟩).1.2 = some .framing) := by
  refine ⟨?_, ?_, v10Read_err_eq, v11Read_err_eq, ?_, ?_, ?_, ?_, ?_, ?_, ?_⟩
  · intro psize s e he
    simp [unframerV10Read, he]
  · intro psize s e he
    simp [unframerV11Read, he]
  · intro psize s he h6
    simp [unframerV10Read, he, if_pos h6]
  · intro psize n hp
    cases n with
    | zero =>
      rw [v11Read_headerErr psize (by omega) [] .framing 0 [] rfl]
    | succ m =>
      unfold unframerV11Read
      dsimp only
      rw [if_neg (by omega : ¬ psize = 0), if_neg (by omega : ¬ m + 1 = 0)]
  · intro psize b r hp hb
    have hph : parseHeader (b :: r) = (some .framing, 0, r) := by
      simp [parseHeader, hb]
    rw [v11Read_headerErr psize (by omega) _ _ _ _ hph]
  · intro psize b r hp hb
    have hph : parseHeader (10 :: b :: r) = (some .framing, 0, r) := by
      simp [parseHeader, hb]
    rw [v11Read_headerErr psize (by omega) _ _ _ _ hph]
  · intro psize b r hp hdig hb35 hb10
    have hpl : parseLenLoop 0 (b :: r) = (some .framing, 0, r) := by
      simp only [parseLenLoop]
      rw [if_neg (by omega), if_neg (by omega), if_neg (by omega)]
    have hph : parseHeader (10 :: 35 :: b :: r) = (some .framing, 0, r) := by
      simp [parseHeader, hpl]
    rw [v11Read_headerErr psize (by omega) _ _ _ _ hph]
  · intro psize r hp
    have hph : parseHeader (10 :: 35 :: 48 :: 10 :: r) = (some .framing, 0, r) := by
      simp [parseHeader, parseLenLoop]
    rw [v11Read_headerErr psize (by omega) _ _ _ _ hph]
  · intro psize hp
    have hph : parseHeader [10, 35, 49] = (some .framing, 1, []) := by
      simp [parseHeader, parseLenLoop]
    rw [v11Read_headerErr psize (by omega) _ _ _ _ hph]

/-- Witness for C3 at concrete states: a stored `ErrFraming` is returned
again by both unframers; the error stored after a read equals the returned
error at a sample state; a two-byte transport is a v1.0 framing error; and
each v1.1 violation shape at a sample input yields `ErrFraming`. -/
theorem framing_violations_sticky_witness :
    unframerV10Read 1 ⟨[], [], some .framing⟩ = (([], some .framing), ⟨[], [], some .framing⟩) ∧
    unframerV11Read 1 ⟨0, [], some .eof⟩ = (([], some .eof), ⟨0, [], some .eof⟩) ∧
    ((unframerV10Read 2 ⟨[93], [93], none⟩).2).err = (unframerV10Read 2 ⟨[93], [93], none⟩).1.2 ∧
    ((unframerV11Read 2 ⟨1, [97], none⟩).2).err = (unframerV11Read 2 ⟨1, [97], none⟩).1.2 ∧
    (unframerV10Read 1 ⟨[93], [93], none⟩).1.2 = some .framing ∧
    (unframerV11Read 1 ⟨3, [], none⟩).1.2 = some .framing ∧
    (unframerV11Read 1 ⟨0, [35, 10], none⟩).1.2 = some .framing ∧
    (unframerV11Read 1 ⟨0, [10, 88, 10], none⟩).1.2 = some .framing ∧
    (unframerV11Read 1 ⟨0, [10, 35, 88, 10], none⟩).1.2 = some .framing ∧
    (unframerV11Read 1 ⟨0, [10, 35, 48, 10, 97], none⟩).1.2 = some .framing ∧
    (unframerV11Read 1 ⟨0, [10, 35, 49], none⟩).1.2 = some .framing :=
  ⟨framing_violations_sticky.1 1 ⟨[], [], some .framing⟩ .framing rfl,
   framing_violations_sticky.2.1 1 ⟨0, [], some .eof⟩ .eof rfl,
   framing_violations_sticky.2.2.1 2 ⟨[93], [93], none⟩,
   framing_violations_sticky.2.2.2.1 2 ⟨1, [97], none⟩,
   framing_violations_sticky.2.2.2.2.1 1 ⟨[93], [93], none⟩ rfl (by norm_num),
   framing_violations_sticky.2.2.2.2.2.1 1 3 (by norm_num),
   framing_violations_sticky.2.2.2.2.2.2.1 1 35 [10] (by norm_num) (by norm_num),
   framing_violations_sticky.2.2.2.2.2.2.2.1 1 88 [10] (by norm_num) (by norm_num),
   framing_violations_sticky.2.2.2.2.2.2.2.2.1 1 88 [10] (by norm_num) (by norm_num)
     (by norm_num) (by norm_num),
   framing_violations_sticky.2.2.2.2.2.2.2.2.2.1 1 [97] (by norm_num),
   framing_violations_sticky.2.2.2.2.2.2.2.2.2.2 1 (by norm_num)⟩

/-! ### Claims C4 and C8: hello exchange, codec selection, failed open -/

/-- The two framing codecs a session can select. -/
inductive Codec where
  | v10
  | v11
deriving DecidableEq, Repr

/-- Errors a session open can fail with; `capabilities` is
`ErrCapabilitiesExchange`, the others stand for XML-encoding and transport
errors of the hello exchange. -/
inductive OpenErr where
  | capabilities
  | encoding
  | transport
deriving DecidableEq, Repr

/-- `urn:ietf:params:netconf:base:1.0` (constants.go). -/
def capNetconf10 : List Char := "urn:ietf:params:netconf:base:1.0".toList

/-- `urn:ietf:params:netconf:base:1.1` (constants.go). -/
def capNetconf11 : List Char := "urn:ietf:params:netconf:base:1.1".toList

/-- The capability-map key: `strings.SplitN(capability, "?", 2)[0]`, the
part of the capability URI before the first `?` (session.go lines
299-306). -/
def capKey (c : List Char) : List Char := c.takeWhile (fun ch => ch ≠ '?')

/-- The codec switch of `newSession` (session.go lines 308-314): v1.1 when
the capability map contains base:1.1, else v1.0 when it contains base:1.0,
else a capabilities failure. -/
def sessionCodec (caps : List (List Char)) : Option Codec :=
  if (caps.map capKey).contains capNetconf11 then some .v11
  else if (caps.map capKey).contains capNetconf10 then some .v10
  else none

/-- `newSession` (session.go lines 260-317) after the hello bytes have been
exchanged: any hello-exchange error is returned first; a zero session-id
(which is also what a hello with no `<session-id>` decodes to, the field
being `omitempty`) is `ErrCapabilitiesExchange`; otherwise the codec switch
runs. -/
def newSessionModel (helloErr : Option OpenErr) (sid : Nat) (caps : List (List Char)) :
    Except OpenErr (Nat × Codec) :=
  match helloErr with
  | some e => .error e
  | none =>
    if sid = 0 then .error .capabilities
    else
      match sessionCodec caps with
      | some c => .ok (sid, c)
      | none => .error .capabilities

/-- `sshClient.NewSession` (ssh.go lines 69-82): on any failure of
`s.init()` the SSH session - the transport - is closed and the first error
is returned; on success the transport stays open.  The boolean records
whether the transport was closed. -/
def sshClientNewSession (initRes : Except OpenErr (Nat × Codec)) :
    Except OpenErr (Nat × Codec) × Bool :=
  match initRes with
  | .ok s => (.ok s, false)
  | .error e => (.error e, true)

/-- Claim C4: codec selection after hello.  For a server hello accepted by
`newSession` (nonzero session-id), the selected codec is v1.1 exactly when
the server's capability list contains `urn:ietf:params:netconf:base:1.1`
(as a capability-map key, i.e. up to `?` parameters); otherwise it is v1.0
when base:1.0 is present; and when neither is advertised, `newSession`
fails with `ErrCapabilitiesExchange`. -/
theorem newSession_codec_selection (sid : Nat) (caps : List (List Char)) (h : sid ≠ 0) :
    (newSessionModel none sid caps = .ok (sid, .v11) ↔
      (caps.map capKey).contains capNetconf11 = true) ∧
    ((caps.map capKey).contains capNetconf11 = false →
      (caps.map capKey).contains capNetconf10 = true →
      newSessionModel none sid caps = .ok (sid, .v10)) ∧
    ((caps.map capKey).contains capNetconf11 = false →
      (caps.map capKey).contains capNetconf10 = false →
      newSessionModel none sid caps = .error .capabilities) := by
  refine ⟨⟨?_, ?_⟩, ?_, ?_⟩
  · intro hok
    by_cases h11 : (caps.map capKey).contains capNetconf11 = true
    · exact h11
    · exfalso
      have e11 : ¬ ∃ a ∈ caps, capKey a = capNetconf11 := by simpa using h11
      simp only [newSessionModel, sessionCodec, if_neg h] at hok
      rw [if_neg (by simpa using e11)] at hok
      split_ifs at hok <;> simp_all
  · intro h11
    have e11 : ∃ a ∈ caps, capKey a = capNetconf11 := by simpa using h11
    simp [newSessionModel, sessionCodec, if_neg h, e11]
  · intro h11 h10
    have e11 : ¬ ∃ a ∈ caps, capKey a = capNetconf11 := by simpa using h11
    have e10 : ∃ a ∈ caps, capKey a = capNetconf10 := by simpa using h10
    simp [newSessionModel, sessionCodec, if_neg h, e11, e10]
  · intro h11 h10
    have e11 : ¬ ∃ a ∈ caps, capKey a = capNetconf11 := by simpa using h11
    have e10 : ¬ ∃ a ∈ caps, capKey a = capNetconf10 := by simpa using h10
    simp [newSessionModel, sessionCodec, if_neg h, e11, e10]

/-- Witness for C4: session-id 42 with capability lists advertising
base:1.1 (with a `?` parameter), only base:1.0, and neither. -/
theorem newSession_codec_selection_witness :
    (newSessionModel none 42 ["urn:ietf:params:netconf:base:1.1?x=y".toList]
        = .ok (42, .v11)) ∧
    (newSessionModel none 42 [capNetconf10] = .ok (42, .v10)) ∧
    (newSessionModel none 42 ["urn:example:other".toList] = .error .capabilities) :=
  ⟨(newSession_codec_selection 42 ["urn:ietf:params:netconf:base:1.1?x=y".toList]
      (by norm_num)).1.mpr (by decide),
   (newSession_codec_selection 42 [capNetconf10] (by norm_num)).2.1 (by decide) (by decide),
   (newSession_codec_selection 42 ["urn:example:other".toList] (by norm_num)).2.2
     (by decide) (by decide)⟩

/-- Claim C8: a failed open closes the transport.  Whenever the session
open fails - for any hello-exchange error, and in particular when the
server hello omits `<session-id>` or carries session-id 0, which fails with
`ErrCapabilitiesExchange` - `sshClient.NewSession` closes the transport and
returns the first error encountered. -/
theorem failed_open_closes_transport :
    (∀ helloErr sid caps e, newSessionModel helloErr sid caps = .error e →
      sshClientNewSession (newSessionModel helloErr sid caps) = (.error e, true)) ∧
    (∀ caps, newSessionModel none 0 caps = .error .capabilities) ∧
    (∀ caps, sshClientNewSession (newSessionModel none 0 caps)
      = (.error .capabilities, true)) := by
  refine ⟨?_, ?_, ?_⟩
  · intro helloErr sid caps e hfail
    rw [hfail]
    rfl
  · intro caps
    rfl
  · intro caps
    rfl

/-- Witness for C8: a hello with session-id 0 (or missing) closes the
transport and surfaces `ErrCapabilitiesExchange`. -/
theorem failed_open_closes_transport_witness :
    sshClientNewSession (newSessionModel none 0 [capNetconf11]) = (.error .capabilities, true) :=
  failed_open_closes_transport.1 none 0 [capNetconf11] .capabilities
    (failed_open_closes_transport.2.1 [capNetconf11])

/-! ### Claim C5: message-id invariant -/

/-- One `Session.Call` message-id step (session.go lines 320-327):
`s.messageID++` then the incremented counter is emitted as the `message-id`
attribute.  Returns (new counter, emitted id). -/
def callStep (mid : Nat) : Nat × Nat := (mid + 1, mid + 1)

/-- The message-ids emitted by `k` consecutive `Session.Call` invocations
starting from internal counter `mid`. -/
def emittedIds : Nat → Nat → List Nat
  | _, 0 => []
  | mid, k + 1 => (callStep mid).2 :: emittedIds (callStep mid).1 k

lemma emittedIds_chain : ∀ k mid, List.Chain' (· < ·) (emittedIds mid k) := by
  intro k
  induction k with
  | zero => intro mid; simp [emittedIds]
  | succ k ih =>
    intro mid
    cases k with
    | zero => simp [emittedIds]
    | succ k' =>
      rw [show emittedIds mid (k' + 1 + 1)
          = (mid + 1) :: (mid + 2) :: emittedIds (mid + 2) k' from rfl]
      rw [List.chain'_cons]
      exact ⟨by omega, ih (mid + 1)⟩

/-- Claim C5: message-id invariant.  The internal counter starts at 0 and
is incremented before each outbound RPC, so over any number `k` of `Call`
invocations the emitted message-id values are strictly increasing and the
first emitted value is 1. -/
theorem messageId_strictly_increasing (k : Nat) :
    List.Chain' (· < ·) (emittedIds 0 k) ∧
    (0 < k → (emittedIds 0 k).head? = some 1) := by
  refine ⟨emittedIds_chain k 0, ?_⟩
  intro hk
  cases k with
  | zero => omega
  | succ k' => rfl

/-- Witness for C5 at three calls. -/
theorem messageId_strictly_increasing_witness :
    List.Chain' (· < ·) (emittedIds 0 3) ∧ (emittedIds 0 3).head? = some 1 :=
  ⟨(messageId_strictly_increasing 3).1, (messageId_strictly_increasing 3).2 (by norm_num)⟩

/-! ### Claims C6 and C7: operation catalog and datastore encoding -/

/-- An XML element name: namespace and local name. -/
structure XName where
  space : List Char
  name : List Char
deriving DecidableEq, Repr

/-- `urn:ietf:params:xml:ns:netconf:base:1.0` (constants.go). -/
def nsNetconf : List Char := "urn:ietf:params:xml:ns:netconf:base:1.0".toList

/-- `urn:ietf:params:xml:ns:netconf:notification:1.0` (constants.go). -/
def nsNetconfNotif : List Char := "urn:ietf:params:xml:ns:netconf:notification:1.0".toList

/-- `urn:ietf:params:xml:ns:yang:ietf-netconf-monitoring` (constants.go). -/
def nsNetconfMonitoring : List Char :=
  "urn:ietf:params:xml:ns:yang:ietf-netconf-monitoring".toList

/-- The operation catalog (operations.go): one constructor per operation
struct. -/
inductive NCOperation where
  | get
  | getConfig
  | editConfig
  | copyConfig
  | deleteConfig
  | lock
  | unlock
  | killSession
  | commit
  | commitConfirmed
  | cancelCommit
  | discardChanges
  | validate
  | validateConfig
  | getSchema
  | createSubscription
deriving DecidableEq, Repr

/-- The `XMLName` struct tag of each operation struct in operations.go,
i.e. the element name `encoding/xml` emits for a value of that type.
`Get` and `GetConfig` carry no namespace in their tags; `Unlock`'s tag
reads `urn:ietf:params:xml:ns:netconf:base:1.0 lock` (operations.go line
237). -/
def opXMLName : NCOperation → XName
  | .get => ⟨[], "get".toList⟩
  | .getConfig => ⟨[], "get-config".toList⟩
  | .editConfig => ⟨nsNetconf, "edit-config".toList⟩
  | .copyConfig => ⟨nsNetconf, "copy-config".toList⟩
  | .deleteConfig => ⟨nsNetconf, "delete-config".toList⟩
  | .lock => ⟨nsNetconf, "lock".toList⟩
  | .unlock => ⟨nsNetconf, "lock".toList⟩
  | .killSession => ⟨nsNetconf, "kill-session".toList⟩
  | .commit => ⟨nsNetconf, "commit".toList⟩
  | .commitConfirmed => ⟨nsNetconf, "commit".toList⟩
  | .cancelCommit => ⟨nsNetconf, "cancel-commit".toList⟩
  | .discardChanges => ⟨nsNetconf, "discard-changes".toList⟩
  | .validate => ⟨nsNetconf, "validate".toList⟩
  | .validateConfig => ⟨nsNetconf, "validate".toList⟩
  | .getSchema => ⟨nsNetconfMonitoring, "get-schema".toList⟩
  | .createSubscription => ⟨nsNetconfNotif, "create-subscription".toList⟩

/-- Claim C6 (code bug): the catalog's `Unlock` operation does not encode
as `<unlock>`.  Its `XMLName` tag names the element `lock`, so an encoded
`Unlock` value is indistinguishable from `Lock` - contradicting the
struct's own doc comment ("Unlock defines the `<unlock>` operation") and
the spec.  The theorem evaluates the embedded catalog at the failing
operation. -/
theorem unlock_element_name_bug :
    opXMLName .unlock = ⟨nsNetconf, "lock".toList⟩ ∧
    (opXMLName .unlock).name ≠ "unlock".toList ∧
    opXMLName .unlock = opXMLName .lock := by
  refine ⟨rfl, by decide, rfl⟩

/-- XML tree fragments produced by the datastore marshaller. -/
inductive XmlNode where
  | elem (name : XName) (children : List XmlNode)
  | text (s : List Char)

/-- `Datastore.MarshalXML` (operations.go lines 341-358): inside the given
start element (`source`/`target`), a datastore string containing `:` is
emitted as a `<url>` element in the base:1.0 namespace holding the string;
any other datastore string is emitted as an empty element whose local name
is the string itself. -/
def datastoreMarshalXML (d : List Char) (start : XName) : XmlNode :=
  if d.contains ':' then
    .elem start [.elem ⟨nsNetconf, "url".toList⟩ [.text d]]
  else
    .elem start [.elem ⟨[], d⟩ []]

/-- Claim C7: polymorphic datastore encoding.  For every datastore string
`S`, `Datastore.MarshalXML` emits `<url>S</url>` in the base:1.0 namespace
when `S` contains a colon, and otherwise an empty element whose local name
is `S` itself. -/
theorem datastore_polymorphic_encoding (d : List Char) (start : XName) :
    (d.contains ':' = true →
      datastoreMarshalXML d start
        = .elem start [.elem ⟨nsNetconf, "url".toList⟩ [.text d]]) ∧
    (d.contains ':' = false →
      datastoreMarshalXML d start = .elem start [.elem ⟨[], d⟩ []]) := by
  constructor
  · intro hc
    have hm : ':' ∈ d := by simpa using hc
    simp [datastoreMarshalXML, hm]
  · intro hc
    have hm : ':' ∉ d := by simpa using hc
    simp [datastoreMarshalXML, hm]

/-- Witness for C7: `"running"` encodes as `<running/>` and `"http://x/y"`
as `<url>http://x/y</url>`, inside a `<target>` start element. -/
theorem datastore_polymorphic_encoding_witness :
    ("running".toList.contains ':' = false ∧
      datastoreMarshalXML "running".toList ⟨nsNetconf, "target".toList⟩
        = .elem ⟨nsNetconf, "target".toList⟩ [.elem ⟨[], "running".toList⟩ []]) ∧
    ("http://x/y".toList.contains ':' = true ∧
      datastoreMarshalXML "http://x/y".toList ⟨nsNetconf, "target".toList⟩
        = .elem ⟨nsNetconf, "target".toList⟩
            [.elem ⟨nsNetconf, "url".toList⟩ [.text "http://x/y".toList]]) :=
  ⟨⟨by decide,
    (datastore_polymorphic_encoding "running".toList ⟨nsNetconf, "target".toList⟩).2
      (by decide)⟩,
   ⟨by decide,
    (datastore_polymorphic_encoding "http://x/y".toList ⟨nsNetconf, "target".toList⟩).1
      (by decide)⟩⟩

/-! ### Claims C9 and C10: the Session.Call read loop -/

/-- Errors on the `Session.Call` path: framing errors surfaced through the
reader and XML decode errors. -/
inductive CallErr where
  | framing
  | xmlDecode
deriving DecidableEq, Repr

/-- One inbound frame as `Session.Call` observes it (session.go lines
334-351): the error, if any, that `decoder.Token()` returns before the
root start element; the root element's namespace and local name; the
error, if any, of `decoder.DecodeElement` when the frame is decoded as the
reply; and the error, if any, that `reader.Close()` returns when the rest
of the frame is drained. -/
structure InFrame where
  preErr : Option CallErr
  rootSpace : List Char
  rootLocal : List Char
  decodeErr : Option CallErr
  closeErr : Option CallErr
deriving DecidableEq, Repr

/-- The local name `rpc-reply` compared against at session.go line 342. -/
def rpcReplyName : List Char := "rpc-reply".toList

/-- The read loop of `Session.Call` (session.go lines 334-351): frames are
read until one whose root local name is `rpc-reply` is decoded; a token
error is terminal; any other root element is skipped, `reader.Close()`
being called with its result discarded; exhausting the transport surfaces
the framing error a fresh unframer reports at EOF.  Returns the error
`Call` returns (`none` is success). -/
def callReadLoop : List InFrame → Option CallErr
  | [] => some .framing
  | f :: rest =>
    match f.preErr with
    | some e => some e
    | none =>
      if f.rootLocal = rpcReplyName then f.decodeErr
      else callReadLoop rest

/-- `Session.Call` (session.go lines 320-353) at the error-propagation
level: a send error (encode or framer close) is returned at once; with a
nil response nothing is read; otherwise the read loop runs. -/
def sessionCall (sendErr : Option CallErr) (responseNil : Bool)
    (frames : List InFrame) : Option CallErr :=
  match sendErr with
  | some e => some e
  | none => if responseNil then none else callReadLoop frames

/-- Claim C9 counterexample: a framing error raised while draining a
skipped non-reply frame is *not* terminal.  The first frame is a
notification whose drain (`reader.Close()`) reports `ErrFraming`; the
result is discarded (session.go line 350), the loop continues, and the
next frame decodes as a clean reply, so `Call` returns success. -/
theorem call_error_propagation_cex :
    sessionCall none false
      [⟨none, nsNetconfNotif, "notification".toList, none, some .framing⟩,
       ⟨none, nsNetconf, rpcReplyName, none, none⟩] = none ∧
    (⟨none, nsNetconfNotif, "notification".toList, none,
      some .framing⟩ : InFrame).closeErr = some .framing := by
  refine ⟨by decide, rfl⟩

/-- Claim C9 (amended): error propagation of `Session.Call` with a non-nil
response.  A send error is terminal and returned; a token-read error on
any frame before a reply is terminal and returned; the decode error of the
selected reply frame is returned; and `Call` returns success only if some
frame was a cleanly decoded `rpc-reply`, every earlier frame being a
skipped non-reply with no token error.  (Errors returned by
`reader.Close()` while draining a skipped frame are discarded, not
returned - see the counterexample.) -/
theorem call_error_propagation (sendErr : Option CallErr) (frames : List InFrame) :
    (∀ e, sendErr = some e → sessionCall sendErr false frames = some e) ∧
    (∀ f rest e, f.preErr = some e → callReadLoop (f :: rest) = some e) ∧
    (∀ f rest, f.preErr = none → f.rootLocal = rpcReplyName →
      callReadLoop (f :: rest) = f.decodeErr) ∧
    (callReadLoop frames = none → ∃ i, ∃ h : i < frames.length,
      (frames.get ⟨i, h⟩).preErr = none ∧
      (frames.get ⟨i, h⟩).rootLocal = rpcReplyName ∧
      (frames.get ⟨i, h⟩).decodeErr = none) := by
  refine ⟨?_, ?_, ?_, ?_⟩
  · intro e he
    simp [sessionCall, he]
  · intro f rest e he
    simp [callReadLoop, he]
  · intro f rest hpre hname
    simp [callReadLoop, hpre, hname]
  · induction frames with
    | nil => intro h; simp [callReadLoop] at h
    | cons f rest ih =>
      intro h
      rcases hpre : f.preErr with _ | e
      · by_cases hname : f.rootLocal = rpcReplyName
        · refine ⟨0, by simp, hpre, hname, ?_⟩
          simpa [callReadLoop, hpre, hname] using h
        · have h' : callReadLoop rest = none := by
            simpa [callReadLoop, hpre, hname] using h
          obtain ⟨i, hi, h1, h2, h3⟩ := ih h'
          exact ⟨i + 1, by simpa using Nat.succ_lt_succ hi, h1, h2, h3⟩
      · exfalso
        simp [callReadLoop, hpre] at h

/-- Witness for the amended C9: a send error is returned; a token error is
returned; a reply frame's decode error is returned; and the
counterexample's success run indeed decoded a clean reply at index 1. -/
theorem call_error_propagation_witness :
    sessionCall (some .xmlDecode) false [] = some .xmlDecode ∧
    callReadLoop [⟨some .framing, [], "x".toList, none, none⟩] = some .framing ∧
    callReadLoop [⟨none, nsNetconf, rpcReplyName, some .xmlDecode, none⟩]
      = some .xmlDecode ∧
    ∃ i, ∃ h : i <
      ([⟨none, nsNetconfNotif, "notification".toList, none, some .framing⟩,
        ⟨none, nsNetconf, rpcReplyName, none, none⟩] : List InFrame).length,
      (([⟨none, nsNetconfNotif, "notification".toList, none, some .framing⟩,
         ⟨none, nsNetconf, rpcReplyName, none, none⟩] : List InFrame).get
            ⟨i, h⟩).preErr = none ∧
      (([⟨none, nsNetconfNotif, "notification".toList, none, some .framing⟩,
         ⟨none, nsNetconf, rpcReplyName, none, none⟩] : List InFrame).get
            ⟨i, h⟩).rootLocal = rpcReplyName ∧
      (([⟨none, nsNetconfNotif, "notification".toList, none, some .framing⟩,
         ⟨none, nsNetconf, rpcReplyName, none, none⟩] : List InFrame).get
            ⟨i, h⟩).decodeErr = none :=
  ⟨(call_error_propagation (some .xmlDecode) []).1 .xmlDecode rfl,
   (call_error_propagation none []).2.1 ⟨some .framing, [], "x".toList, none, none⟩ [] .framing rfl,
   (call_error_propagation none []).2.2.1
     ⟨none, nsNetconf, rpcReplyName, some .xmlDecode, none⟩ [] rfl rfl,
   (call_error_propagation none
     [⟨none, nsNetconfNotif, "notification".toList, none, some .framing⟩,
      ⟨none, nsNetconf, rpcReplyName, none, none⟩]).2.2.2 (by decide)⟩

/-- Claim C10: `Session.Call` selects the reply by local element name
only.  A frame whose root local name is `rpc-reply` is decoded as the
reply whatever its namespace (including none); a frame with any other root
local name is discarded and the loop moves to the next frame; and the loop
never inspects the root namespace or the discarded drain result at all:
two frames differing only in those fields drive the loop identically. -/
theorem call_selects_reply_by_local_name :
    (∀ pre sp lcl dec cls rest, pre = none → lcl = rpcReplyName →
      callReadLoop (⟨pre, sp, lcl, dec, cls⟩ :: rest) = dec) ∧
    (∀ f rest, f.preErr = none → f.rootLocal ≠ rpcReplyName →
      callReadLoop (f :: rest) = callReadLoop rest) ∧
    (∀ f g rest, f.preErr = g.preErr → f.rootLocal = g.rootLocal →
      f.decodeErr = g.decodeErr →
      callReadLoop (f :: rest) = callReadLoop (g :: rest)) := by
  refine ⟨?_, ?_, ?_⟩
  · intro pre sp lcl dec cls rest hpre hname
    simp [callReadLoop, hpre, hname]
  · intro f rest hpre hname
    simp [callReadLoop, hpre, hname]
  · intro f g rest h1 h2 h3
    simp only [callReadLoop, h1, h2, h3]

/-- Witness for C10: a namespace-less `rpc-reply` and one in a foreign
namespace are both decoded; a `notification` frame is skipped. -/
theorem call_selects_reply_by_local_name_witness :
    callReadLoop [⟨none, [], rpcReplyName, none, none⟩] = none ∧
    callReadLoop [⟨none, "urn:weird".toList, rpcReplyName, none, none⟩] = none ∧
    callReadLoop
      (⟨none, nsNetconfNotif, "notification".toList, none, none⟩
        :: [⟨none, [], rpcReplyName, none, none⟩])
      = callReadLoop [⟨none, [], rpcReplyName, none, none⟩] :=
  ⟨call_selects_reply_by_local_name.1 none [] rpcReplyName none none [] rfl rfl,
   call_selects_reply_by_local_name.1 none "urn:weird".toList rpcReplyName none none [] rfl rfl,
   call_selects_reply_by_local_name.2.1
     ⟨none, nsNetconfNotif, "notification".toList, none, none⟩
     [⟨none, [], rpcReplyName, none, none⟩] rfl (by decide)⟩

end Netgonf
